import Mathlib

/-!
Shallow embedding of the BMP image-processing program (src/main.cpp).

The data model is the C++ `vector<vector<Pixel>>` with `Pixel` holding three
`int` channels.  Machine `int` arithmetic is modelled by `Int`, with an
explicit reduction `wrap32` into the signed 32-bit range at the points where
the C++ computation can overflow.  Byte streams (the contents of a BMP file)
are modelled as `List Nat`, each element a byte value; reading past the end
of the stream yields `-1`, the value `std::istream::get` returns at EOF.
-/

/-- A pixel: red, green, blue channel values, stored as C++ `int`. -/
structure Pixel where
  red : Int
  green : Int
  blue : Int
  deriving DecidableEq

/-- The image type `vector<vector<Pixel>>`: a list of rows of pixels. -/
abbrev Image := List (List Pixel)

/-- The default pixel value: `Pixel` value-initialized by `vector`, all fields zero. -/
def blackPixel : Pixel := ⟨0, 0, 0⟩

/-- Reading entry `image[r][c]`; out-of-range access is total here (default
pixel) and is only ever used in-range in the theorems. -/
def pixelAt (image : Image) (r c : Nat) : Pixel :=
  (image.getD r []).getD c blackPixel

/-- The width the program uses everywhere: `image[0].size()`. -/
def imgWidth (image : Image) : Nat := (image.headD []).length

/-- The grid invariant: every row has length `W`. -/
abbrev Rectangular (image : Image) (W : Nat) : Prop :=
  ∀ row ∈ image, row.length = W

/-- Building a grid of `H` rows and `W` columns whose `(r, c)` entry is `f r c`.
This is the translation of the C++ pattern that allocates
`vector<vector<Pixel>> new_image(H, vector<Pixel>(W))` and then fills every
entry of the result exactly once inside a nested loop. -/
def mkGrid (H W : Nat) (f : Nat → Nat → Pixel) : Image :=
  (List.range H).map (fun r => (List.range W).map (fun c => f r c))

/-- Reduction of an exact integer value into the signed 32-bit range,
modelling two's-complement `int` overflow. -/
def wrap32 (v : Int) : Int := (v + 2147483648) % 4294967296 - 2147483648

/-- Reading one byte of the stream at a non-negative position:
the byte value, or `-1` (EOF) past the end. -/
def streamGetN (bs : List Nat) (pos : Nat) : Int :=
  match bs[pos]? with
  | some b => (b : Int)
  | none => -1

/-- Reading one byte of the stream at an `int` position (a negative seek
position also fails, so the subsequent `get` yields EOF). -/
def streamGet (bs : List Nat) (pos : Int) : Int :=
  if 0 ≤ pos then streamGetN bs pos.toNat else -1

/-- Model of `get_int`: reads `bytes` bytes starting at `offset`,
least-significant first, accumulating `result + stream.get() * base` with
`base` running through the powers of 256; the `int` accumulator wraps. -/
def get_int (bs : List Nat) (offset : Nat) (bytes : Nat) : Int :=
  wrap32 ((List.range bytes).foldl
    (fun result i => result + streamGetN bs (offset + i) * 256 ^ i) 0)

/-- Model of `set_bytes`: the `bytes` bytes `(unsigned char)(value >> (i*8))`
of a non-negative value, least-significant first. -/
def set_bytes (value : Nat) (bytes : Nat) : List Nat :=
  (List.range bytes).map (fun i => value / 256 ^ i % 256)

/-- The row padding computed by `read_image`:
`if (scanline_size % 4 != 0) padding = 4 - scanline_size % 4`, with the
C++ truncating `%` on `int`. -/
def read_padding (scanline_size : Int) : Int :=
  if Int.tmod scanline_size 4 ≠ 0 then 4 - Int.tmod scanline_size 4 else 0

/-- The row padding computed by `write_image`: `(4 - width_bytes % 4) % 4`. -/
def write_padding (width_bytes : Nat) : Nat := (4 - width_bytes % 4) % 4

/-- The file-size header field read by `read_image`: 4 bytes at offset 2. -/
def hdrFileSize (bs : List Nat) : Int := get_int bs 2 4

/-- The pixel-array-offset header field: 4 bytes at offset 10. -/
def hdrStart (bs : List Nat) : Int := get_int bs 10 4

/-- The width header field: 4 bytes at offset 18. -/
def hdrWidth (bs : List Nat) : Int := get_int bs 18 4

/-- The height header field: 4 bytes at offset 22. -/
def hdrHeight (bs : List Nat) : Int := get_int bs 22 4

/-- The bits-per-pixel header field: 2 bytes at offset 28. -/
def hdrBpp (bs : List Nat) : Int := get_int bs 28 2

/-- The scan line size `width * (bits_per_pixel / 8)` computed by
`read_image` in `int` arithmetic (truncating division, wrapping product). -/
def hdrScanline (bs : List Nat) : Int :=
  wrap32 (hdrWidth bs * Int.tdiv (hdrBpp bs) 8)

/-- Model of `read_image`.  Returns `some grid` for the two non-faulting
outcomes (the empty grid is the failure sentinel the C++ code returns when
the file-size validation fails), and `none` for a hard fault: after the
validation passes, the C++ code constructs `vector(height, vector(width))`,
which raises `std::length_error` when `height` or `width` is negative
(the negative `int` converts to an enormous `size_t`).  The pixel at grid
position `(i, j)` is read at stream position
`start + (height-1-i) * (scanline_size+padding) + j * (bits_per_pixel/8)`,
the closed form of the running `pos` of the C++ loop (which walks the rows
from `height-1` down to `0`, advancing `pos` by `bits_per_pixel/8` per pixel
and by `padding` per row), with bytes blue, green, red in that order. -/
def read_image (bs : List Nat) : Option Image :=
  let file_size := hdrFileSize bs
  let start := hdrStart bs
  let width := hdrWidth bs
  let height := hdrHeight bs
  let bits_per_pixel := hdrBpp bs
  let scanline_size := hdrScanline bs
  let padding := read_padding scanline_size
  if file_size ≠ wrap32 (start + wrap32 ((scanline_size + padding) * height)) then
    some []
  else if height < 0 ∨ width < 0 then
    none
  else
    some (mkGrid height.toNat width.toNat (fun i j =>
      let pos := wrap32 (start + ((height - 1) - (i : Int)) * (scanline_size + padding)
        + (j : Int) * Int.tdiv bits_per_pixel 8)
      { red := streamGet bs (pos + 2),
        green := streamGet bs (pos + 1),
        blue := streamGet bs pos }))

/-- The three bytes a row's pixels contribute to the output stream:
blue, green, red per pixel, each channel converted by
`(unsigned char)` which reduces the `int` value modulo 256. -/
def rowBytes (row : List Pixel) : List Nat :=
  row.flatMap (fun p =>
    [(p.blue % 256).toNat, (p.green % 256).toNat, (p.red % 256).toNat])

/-- The 14-byte BMP header written by `write_image`:
the two ID bytes, the file size, two reserved 2-byte fields,
and the pixel-array offset 14 + 40 = 54. -/
def bmp_header (file_size : Nat) : List Nat :=
  set_bytes 66 1 ++ set_bytes 77 1 ++ set_bytes file_size 4 ++
  set_bytes 0 2 ++ set_bytes 0 2 ++ set_bytes 54 4

/-- The 40-byte DIB header written by `write_image`: header size 40, width,
height, 1 color plane, 24 bits per pixel, compression 0, raw bitmap size,
resolutions 2835, palette counts 0. -/
def dib_header (width_pixels height_pixels array_bytes : Nat) : List Nat :=
  set_bytes 40 4 ++ set_bytes width_pixels 4 ++ set_bytes height_pixels 4 ++
  set_bytes 1 2 ++ set_bytes 24 2 ++ set_bytes 0 4 ++ set_bytes array_bytes 4 ++
  set_bytes 2835 4 ++ set_bytes 2835 4 ++ set_bytes 0 4 ++ set_bytes 0 4

/-- Model of `write_image` as the byte stream it writes: headers, then the
rows from the last to the first, each row as blue, green, red bytes per
pixel followed by `padding_bytes` zero bytes.  Sizes are the `vector`
sizes, kept as `Nat`. -/
def write_image (image : Image) : List Nat :=
  let width_pixels := imgWidth image
  let height_pixels := image.length
  let width_bytes := width_pixels * 3
  let padding_bytes := write_padding width_bytes
  let array_bytes := (width_bytes + padding_bytes) * height_pixels
  bmp_header (14 + 40 + array_bytes) ++
  dib_header width_pixels height_pixels array_bytes ++
  image.reverse.flatMap (fun row => rowBytes row ++ List.replicate padding_bytes 0)

/-- Model of the exact value of the C++ expression `(int)(k + 0.5)` for an
integer `k`: the double `k + 0.5` is exact for every magnitude arising here
and truncates toward zero, giving `k` back for non-negative `k` and `k + 1`
for negative `k`. -/
def addHalfTrunc (k : Int) : Int := if 0 ≤ k then k else k + 1

/-- Model of `process_3` (grayscale):
`gray_value = ((red + green + blue)/3) + 0.5` assigned to an `int`,
where the inner division is already integer (truncating) division. -/
def process_3 (image : Image) : Image :=
  mkGrid image.length (imgWidth image) (fun row col =>
    let p := pixelAt image row col
    let gray_value := addHalfTrunc (Int.tdiv (p.red + p.green + p.blue) 3)
    ⟨gray_value, gray_value, gray_value⟩)

/-- Model of `process_4` (rotate 90 degrees clockwise): the output has
`width` rows and `height` columns, and the C++ loop stores
`new_image[col][(height-1)-row] = image[row][col]`; equivalently the output
entry `(r, c)` is `image[(height-1)-c][r]`. -/
def process_4 (image : Image) : Image :=
  mkGrid (imgWidth image) image.length (fun r c =>
    pixelAt image (image.length - 1 - c) r)

/-- Model of `process_5` (rotate by a number of 90-degree turns):
`angle = number * 90` in wrapping `int` arithmetic, then dispatch on the
C++ truncating `%` of `angle` by 90 and 360. -/
def process_5 (image : Image) (number : Int) : Image :=
  let angle := wrap32 (number * 90)
  if Int.tmod angle 90 ≠ 0 then image
  else if Int.tmod angle 360 = 0 then image
  else if Int.tmod angle 360 = 90 then process_4 image
  else if Int.tmod angle 360 = 180 then process_4 (process_4 image)
  else process_4 (process_4 (process_4 image))

/-- Model of `process_6` (enlarge): the output has `height * y_scale` rows
and `width * x_scale` columns and entry `(row, col)` copies
`image[(row/y_scale)+0.5][(col/x_scale)+0.5]`; the `+0.5` is added to the
already-integer quotient and truncates away again when the double indexes
the vector, so the source entry is `(row / y_scale, col / x_scale)`. -/
def process_6 (image : Image) (x_scale y_scale : Nat) : Image :=
  mkGrid (image.length * y_scale) (imgWidth image * x_scale) (fun row col =>
    pixelAt image (row / y_scale) (col / x_scale))

/-- Model of `process_7` (high contrast): truncated channel average
compared against `255/2` in integer division (= 127); at least the
threshold gives white, below it black. -/
def process_7 (image : Image) : Image :=
  mkGrid image.length (imgWidth image) (fun row col =>
    let p := pixelAt image row col
    let gray_value := Int.tdiv (p.red + p.green + p.blue) 3
    if gray_value ≥ Int.tdiv 255 2 then ⟨255, 255, 255⟩ else ⟨0, 0, 0⟩)

/-- Model of `process_10` (posterize to black, white, red, green, blue):
classify by the channel sum, then by which channel attains the maximum,
testing red first, then green, else blue. -/
def process_10 (image : Image) : Image :=
  mkGrid image.length (imgWidth image) (fun row col =>
    let p := pixelAt image row col
    let max_color := max (max p.red p.green) p.blue
    if p.red + p.green + p.blue ≥ 550 then ⟨255, 255, 255⟩
    else if p.red + p.green + p.blue ≤ 150 then ⟨0, 0, 0⟩
    else if max_color = p.red then ⟨255, 0, 0⟩
    else if max_color = p.green then ⟨0, 255, 0⟩
    else ⟨0, 0, 255⟩)

/-- Applying `process_4` a given number of times. -/
def rotIter : Nat → Image → Image
  | 0, image => image
  | n + 1, image => rotIter n (process_4 image)

/-! ### Basic grid lemmas -/

lemma length_mkGrid (H W : Nat) (f : Nat → Nat → Pixel) : (mkGrid H W f).length = H := by
  simp [mkGrid]

lemma rect_mkGrid (H W : Nat) (f : Nat → Nat → Pixel) : Rectangular (mkGrid H W f) W := by
  intro row hrow
  simp only [mkGrid, List.mem_map] at hrow
  obtain ⟨r, _, rfl⟩ := hrow
  simp

lemma pixelAt_mkGrid (H W : Nat) (f : Nat → Nat → Pixel) (r c : Nat)
    (hr : r < H) (hc : c < W) : pixelAt (mkGrid H W f) r c = f r c := by
  simp only [pixelAt, mkGrid, List.getD_eq_getElem?_getD, List.getElem?_map,
    List.getElem?_range hr, List.getElem?_range hc, Option.map_some', Option.getD_some]

lemma imgWidth_eq (image : Image) (W : Nat) (h0 : 0 < image.length)
    (hrect : Rectangular image W) : imgWidth image = W := by
  cases image with
  | nil => simp at h0
  | cons row rest => exact hrect row (List.mem_cons_self _ _)

lemma getD_range_map {α : Type} (l : List α) (d : α) :
    (List.range l.length).map (fun c => l.getD c d) = l := by
  induction l with
  | nil => rfl
  | cons a t ih =>
    rw [List.length_cons, List.range_succ_eq_map, List.map_cons, List.map_map]
    have he : ((fun c => (a :: t).getD c d) ∘ Nat.succ) = (fun c => t.getD c d) := rfl
    rw [he, ih]
    rfl

lemma mkGrid_pixelAt (image : Image) (W : Nat) (hrect : Rectangular image W) :
    mkGrid image.length W (fun r c => pixelAt image r c) = image := by
  induction image with
  | nil => rfl
  | cons row rest ih =>
    unfold mkGrid at ih ⊢
    rw [List.length_cons, List.range_succ_eq_map, List.map_cons, List.map_map]
    have hw : row.length = W := hrect row (List.mem_cons_self _ _)
    have h1 : (List.range W).map (fun c => pixelAt (row :: rest) 0 c) = row := by
      rw [← hw]
      have he : (fun c => pixelAt (row :: rest) 0 c) = (fun c => row.getD c blackPixel) := rfl
      rw [he, getD_range_map]
    have h2 : ((fun r => (List.range W).map fun c => pixelAt (row :: rest) r c) ∘ Nat.succ)
        = (fun r => (List.range W).map fun c => pixelAt rest r c) := rfl
    rw [h1, h2, ih (fun r hr => hrect r (List.mem_cons_of_mem _ hr))]

lemma mkGrid_congr (H W : Nat) (f g : Nat → Nat → Pixel)
    (h : ∀ r, r < H → ∀ c, c < W → f r c = g r c) : mkGrid H W f = mkGrid H W g := by
  unfold mkGrid
  refine List.map_congr_left (fun r hr => ?_)
  refine List.map_congr_left (fun c hc => ?_)
  exact h r (List.mem_range.mp hr) c (List.mem_range.mp hc)

/-! ### Claim C3: row padding values -/

/-- Claim C3, amended: for a 24-bits-per-pixel image of width 3 (9 bytes per
row) the computed row padding is 3 (not 1), and for width 4 (12 bytes per
row) it is 0; in general the padding computed on the write path is the
smallest non-negative value making (bytes-per-row + padding) a multiple
of 4. -/
theorem padding_values :
    write_padding (3 * 3) = 3 ∧ read_padding (3 * Int.tdiv 24 8) = 3 ∧
    write_padding (4 * 3) = 0 ∧ read_padding (4 * Int.tdiv 24 8) = 0 ∧
    ∀ width_bytes : Nat,
      (width_bytes + write_padding width_bytes) % 4 = 0 ∧
      ∀ p : Nat, p < write_padding width_bytes → (width_bytes + p) % 4 ≠ 0 := by
  refine ⟨by decide, by decide, by decide, by decide, fun wb => ⟨?_, fun p hp => ?_⟩⟩
  · unfold write_padding
    omega
  · unfold write_padding at hp
    omega

/-- Claim C3, witness for the amended claim: at 9 bytes per row the padding
produced by the code completes the row to a multiple of 4, and the
candidate 2 is too small. -/
theorem padding_values_w : (9 + write_padding 9) % 4 = 0 ∧ (9 + 2) % 4 ≠ 0 :=
  ⟨(padding_values.2.2.2.2 9).1, (padding_values.2.2.2.2 9).2 2 (by decide)⟩

/-- Claim C3, counterexample to the claim as stated: at width 3 (9 bytes
per row, 24 bpp) both codec paths compute padding 3, and 3 ≠ 1. -/
theorem padding_claim_ce :
    write_padding (3 * 3) = 3 ∧ read_padding (3 * Int.tdiv 24 8) = 3 ∧ (3 : Nat) ≠ 1 := by
  decide

/-! ### Claim C4: grayscale -/

/-- Claim C4, counterexample to the claim as stated: on the pixel (1,1,3)
the grayscale transform produces channel value 1, yet 2 is strictly nearer
to the real mean 5/3 than 1 is (|3·2−5| < |3·1−5|), so the output channel is
not round((R+G+B)/3). -/
theorem grayscale_round_ce :
    process_3 [[⟨1, 1, 3⟩]] = [[⟨1, 1, 1⟩]] ∧
    (3 * 2 - (1 + 1 + 3) : Int).natAbs < (3 * 1 - (1 + 1 + 3) : Int).natAbs := by
  decide

/-- Claim C4, amended: for every non-empty rectangular grid and every pixel
(R,G,B) in it with non-negative channels, the Grayscale transform sets all
three channels of the corresponding output pixel to (R+G+B)/3 rounded
toward zero (truncating integer division); the `+ 0.5` in the source is
added after the integer division and therefore never changes the value. -/
theorem grayscale_truncated_mean (image : Image) (W : Nat) (hrect : Rectangular image W)
    (r c : Nat) (hr : r < image.length) (hc : c < W)
    (h0r : 0 ≤ (pixelAt image r c).red) (h0g : 0 ≤ (pixelAt image r c).green)
    (h0b : 0 ≤ (pixelAt image r c).blue) :
    pixelAt (process_3 image) r c =
      ⟨((pixelAt image r c).red + (pixelAt image r c).green + (pixelAt image r c).blue) / 3,
       ((pixelAt image r c).red + (pixelAt image r c).green + (pixelAt image r c).blue) / 3,
       ((pixelAt image r c).red + (pixelAt image r c).green + (pixelAt image r c).blue) / 3⟩ := by
  have hw : imgWidth image = W := imgWidth_eq image W (by omega) hrect
  unfold process_3
  rw [hw, pixelAt_mkGrid _ _ _ _ _ hr hc]
  dsimp only
  have hs : 0 ≤ (pixelAt image r c).red + (pixelAt image r c).green + (pixelAt image r c).blue := by
    omega
  rw [Int.tdiv_eq_ediv hs (by norm_num)]
  unfold addHalfTrunc
  rw [if_pos (Int.ediv_nonneg hs (by norm_num))]

/-- Claim C4, witness: the amended theorem applied to the one-pixel grid
(1,1,3), whose truncated mean is 1. -/
theorem grayscale_truncated_mean_w :
    pixelAt (process_3 [[⟨1, 1, 3⟩]]) 0 0 = ⟨(1 + 1 + 3 : Int) / 3, (1 + 1 + 3 : Int) / 3, (1 + 1 + 3 : Int) / 3⟩ := by
  have h := grayscale_truncated_mean [[⟨1, 1, 3⟩]] 1 (by decide) 0 0 (by decide) (by decide)
    (by decide) (by decide) (by decide)
  simpa [pixelAt, blackPixel] using h

/-! ### Claim C5: high contrast -/

/-- Claim C5, counterexample to the claim as stated: the pixel
(127,127,127) has channel average 127 < 128, so the claim requires pure
black, but the transform produces pure white (the code compares against
255/2 = 127 in integer division). -/
theorem high_contrast_ce :
    process_7 [[⟨127, 127, 127⟩]] = [[⟨255, 255, 255⟩]] ∧ 127 + 127 + 127 < 3 * 128 := by
  decide

/-- Claim C5, amended: for every non-empty rectangular grid and every pixel
in it with non-negative channels, if the truncated average (R+G+B)/3 is
≥ 127 (the integer value of 255/2) the output pixel is pure white
(255,255,255), otherwise it is pure black (0,0,0). -/
theorem high_contrast_threshold (image : Image) (W : Nat) (hrect : Rectangular image W)
    (r c : Nat) (hr : r < image.length) (hc : c < W)
    (h0r : 0 ≤ (pixelAt image r c).red) (h0g : 0 ≤ (pixelAt image r c).green)
    (h0b : 0 ≤ (pixelAt image r c).blue) :
    (127 ≤ ((pixelAt image r c).red + (pixelAt image r c).green + (pixelAt image r c).blue) / 3 →
      pixelAt (process_7 image) r c = ⟨255, 255, 255⟩) ∧
    (((pixelAt image r c).red + (pixelAt image r c).green + (pixelAt image r c).blue) / 3 < 127 →
      pixelAt (process_7 image) r c = ⟨0, 0, 0⟩) := by
  have hw : imgWidth image = W := imgWidth_eq image W (by omega) hrect
  unfold process_7
  rw [hw, pixelAt_mkGrid _ _ _ _ _ hr hc]
  dsimp only
  have hs : 0 ≤ (pixelAt image r c).red + (pixelAt image r c).green + (pixelAt image r c).blue := by
    omega
  rw [Int.tdiv_eq_ediv hs (by norm_num), show Int.tdiv 255 2 = 127 from rfl]
  constructor
  · intro h
    rw [if_pos (by exact h)]
  · intro h
    rw [if_neg (by omega)]

/-- Claim C5, witness: the amended theorem applied to the one-pixel grid
(127,127,127), whose truncated average 127 meets the threshold. -/
theorem high_contrast_threshold_w :
    pixelAt (process_7 [[⟨127, 127, 127⟩]]) 0 0 = ⟨255, 255, 255⟩ :=
  (high_contrast_threshold [[⟨127, 127, 127⟩]] 1 (by decide) 0 0 (by decide) (by decide)
    (by decide) (by decide) (by decide)).1 (by decide)


/-! ### Claim C9: posterize -/

/-- Claim C9, confirmed: for every pixel (R,G,B) with channels in [0,255]
in a non-empty rectangular grid, the Posterize5 output is pure white when
R+G+B ≥ 550, pure black when R+G+B ≤ 150, and otherwise the pure color of
the maximal channel, ties resolved by red > green > blue precedence. -/
theorem posterize_classification (image : Image) (W : Nat) (hrect : Rectangular image W)
    (r c : Nat) (hr : r < image.length) (hc : c < W)
    (hrange : 0 ≤ (pixelAt image r c).red ∧ (pixelAt image r c).red ≤ 255 ∧
      0 ≤ (pixelAt image r c).green ∧ (pixelAt image r c).green ≤ 255 ∧
      0 ≤ (pixelAt image r c).blue ∧ (pixelAt image r c).blue ≤ 255) :
    (550 ≤ (pixelAt image r c).red + (pixelAt image r c).green + (pixelAt image r c).blue →
      pixelAt (process_10 image) r c = ⟨255, 255, 255⟩) ∧
    ((pixelAt image r c).red + (pixelAt image r c).green + (pixelAt image r c).blue ≤ 150 →
      pixelAt (process_10 image) r c = ⟨0, 0, 0⟩) ∧
    (150 < (pixelAt image r c).red + (pixelAt image r c).green + (pixelAt image r c).blue →
     (pixelAt image r c).red + (pixelAt image r c).green + (pixelAt image r c).blue < 550 →
      ((pixelAt image r c).green ≤ (pixelAt image r c).red →
          (pixelAt image r c).blue ≤ (pixelAt image r c).red →
          pixelAt (process_10 image) r c = ⟨255, 0, 0⟩) ∧
      ((pixelAt image r c).red < (pixelAt image r c).green →
          (pixelAt image r c).blue ≤ (pixelAt image r c).green →
          pixelAt (process_10 image) r c = ⟨0, 255, 0⟩) ∧
      ((pixelAt image r c).red < (pixelAt image r c).blue →
          (pixelAt image r c).green < (pixelAt image r c).blue →
          pixelAt (process_10 image) r c = ⟨0, 0, 255⟩)) := by
  have hw : imgWidth image = W := imgWidth_eq image W (by omega) hrect
  unfold process_10
  rw [hw, pixelAt_mkGrid _ _ _ _ _ hr hc]
  dsimp only
  refine ⟨fun h550 => ?_, fun h150 => ?_,
    fun hlo hhi => ⟨fun hgr hbr => ?_, fun hrg hbg => ?_, fun hrb hgb => ?_⟩⟩
  · rw [if_pos h550]
  · rw [if_neg (by omega), if_pos h150]
  · have hM : max (max (pixelAt image r c).red (pixelAt image r c).green)
        (pixelAt image r c).blue = (pixelAt image r c).red := by omega
    rw [hM, if_neg (by omega), if_neg (by omega), if_pos rfl]
  · have hM : max (max (pixelAt image r c).red (pixelAt image r c).green)
        (pixelAt image r c).blue = (pixelAt image r c).green := by omega
    rw [hM, if_neg (by omega), if_neg (by omega), if_neg (by omega), if_pos rfl]
  · have hM : max (max (pixelAt image r c).red (pixelAt image r c).green)
        (pixelAt image r c).blue = (pixelAt image r c).blue := by omega
    rw [hM, if_neg (by omega), if_neg (by omega), if_neg (by omega), if_neg (by omega)]

/-- Claim C9, witness: the pixel (200,100,50) has a mid-range sum with red
maximal, so the posterized output is pure red. -/
theorem posterize_classification_w :
    pixelAt (process_10 [[⟨200, 100, 50⟩]]) 0 0 = ⟨255, 0, 0⟩ :=
  ((posterize_classification [[⟨200, 100, 50⟩]] 1 (by decide) 0 0 (by decide) (by decide)
    (by decide)).2.2 (by decide) (by decide)).1 (by decide) (by decide)

/-! ### Claim C7: rotate 90 degrees -/

/-- Claim C7, confirmed: for every non-empty rectangular grid of height H
and width W, Rotate90 produces a grid of height W whose rows have length H,
and the input pixel at (r, c) appears in the output at (c, H−1−r). -/
theorem rotate90_index_map (image : Image) (W : Nat) (h0 : 0 < image.length)
    (hrect : Rectangular image W) :
    (process_4 image).length = W ∧
    Rectangular (process_4 image) image.length ∧
    ∀ r c, r < image.length → c < W →
      pixelAt (process_4 image) c (image.length - 1 - r) = pixelAt image r c := by
  have hw : imgWidth image = W := imgWidth_eq image W h0 hrect
  refine ⟨?_, ?_, ?_⟩
  · unfold process_4
    rw [hw, length_mkGrid]
  · unfold process_4
    rw [hw]
    exact rect_mkGrid _ _ _
  · intro r c hrlt hclt
    unfold process_4
    rw [hw, pixelAt_mkGrid _ _ _ _ _ hclt (by omega)]
    have he : image.length - 1 - (image.length - 1 - r) = r := by omega
    rw [he]

/-- Claim C7, witness: in the 1×2 grid [[(1,2,3),(4,5,6)]] the pixel at
(0, 1) moves to output position (1, 0). -/
theorem rotate90_index_map_w :
    pixelAt (process_4 [[⟨1, 2, 3⟩, ⟨4, 5, 6⟩]]) 1 0 = pixelAt [[⟨1, 2, 3⟩, ⟨4, 5, 6⟩]] 0 1 :=
  (rotate90_index_map [[⟨1, 2, 3⟩, ⟨4, 5, 6⟩]] 2 (by decide) (by decide)).2.2 0 1
    (by decide) (by decide)

/-! ### Claim C8: enlarge -/

/-- Claim C8, confirmed: for every non-empty rectangular grid of width W
and height H and integer scales ≥ 1, Enlarge produces a grid of height
H·y_scale whose rows have length W·x_scale, every output pixel (r, c)
copies the input pixel (r / y_scale, c / x_scale) by integer (floor)
division, and Enlarge with both scales 1 is the identity. -/
theorem enlarge_spec (image : Image) (W x_scale y_scale : Nat) (h0 : 0 < image.length)
    (hrect : Rectangular image W) (hx : 1 ≤ x_scale) (hy : 1 ≤ y_scale) :
    (process_6 image x_scale y_scale).length = image.length * y_scale ∧
    Rectangular (process_6 image x_scale y_scale) (W * x_scale) ∧
    (∀ r c, r < image.length * y_scale → c < W * x_scale →
      pixelAt (process_6 image x_scale y_scale) r c = pixelAt image (r / y_scale) (c / x_scale)) ∧
    process_6 image 1 1 = image := by
  have hw : imgWidth image = W := imgWidth_eq image W h0 hrect
  refine ⟨?_, ?_, ?_, ?_⟩
  · unfold process_6
    rw [hw, length_mkGrid]
  · unfold process_6
    rw [hw]
    exact rect_mkGrid _ _ _
  · intro r c hrlt hclt
    unfold process_6
    rw [hw, pixelAt_mkGrid _ _ _ _ _ hrlt hclt]
  · unfold process_6
    rw [hw]
    simp only [Nat.mul_one, Nat.div_one]
    exact mkGrid_pixelAt image W hrect

/-- Claim C8, witness: doubling the 1×2 grid horizontally copies source
column 1 into output column 2, and scale (1,1) is the identity. -/
theorem enlarge_spec_w :
    pixelAt (process_6 [[⟨1, 2, 3⟩, ⟨4, 5, 6⟩]] 2 1) 0 2 = pixelAt [[⟨1, 2, 3⟩, ⟨4, 5, 6⟩]] 0 1 ∧
    process_6 [[⟨1, 2, 3⟩, ⟨4, 5, 6⟩]] 1 1 = [[⟨1, 2, 3⟩, ⟨4, 5, 6⟩]] := by
  have h := enlarge_spec [[⟨1, 2, 3⟩, ⟨4, 5, 6⟩]] 2 2 1 (by decide) (by decide)
    (by decide) (by decide)
  exact ⟨h.2.2.1 0 2 (by decide) (by decide), h.2.2.2⟩

/-! ### Claim C6: rotate by N quarter turns -/

lemma process_5_eq_rotIter (image : Image) (number : Int) (h0 : 0 ≤ number)
    (hb : number * 90 < 2147483648) :
    process_5 image number = rotIter (number % 4).toNat image := by
  unfold process_5
  have hw : wrap32 (number * 90) = number * 90 := by
    unfold wrap32
    omega
  rw [hw]
  dsimp only
  rw [Int.tmod_eq_emod (by omega) (by norm_num),
    Int.tmod_eq_emod (by omega) (by norm_num)]
  have h90 : (number * 90) % 90 = 0 := by omega
  have h360 : (number * 90) % 360 = 90 * (number % 4) := by omega
  rw [if_neg (not_not_intro h90), h360]
  have h4 : number % 4 = 0 ∨ number % 4 = 1 ∨ number % 4 = 2 ∨ number % 4 = 3 := by omega
  rcases h4 with h | h | h | h
  · rw [h, if_pos (by norm_num)]
    rfl
  · rw [h, if_neg (by norm_num), if_pos (by norm_num)]
    rfl
  · rw [h, if_neg (by norm_num), if_neg (by norm_num), if_pos (by norm_num)]
    rfl
  · rw [h, if_neg (by norm_num), if_neg (by norm_num), if_neg (by norm_num)]
    rfl

/-- Claim C6, amended: for every grid g and every integer N with 0 ≤ N and
90·N below 2^31 (so the `int` angle does not overflow), RotateN(g, N)
equals applying Rotate90 exactly (N mod 4) times; in particular
RotateN(g, 4) = g and RotateN(g, 1) = Rotate90(g). -/
theorem rotateN_iterates (image : Image) (number : Int) (h0 : 0 ≤ number)
    (hb : number * 90 < 2147483648) :
    process_5 image number = rotIter (number % 4).toNat image ∧
    process_5 image 4 = image ∧
    process_5 image 1 = process_4 image :=
  ⟨process_5_eq_rotIter image number h0 hb,
   (process_5_eq_rotIter image 4 (by norm_num) (by norm_num)).trans rfl,
   (process_5_eq_rotIter image 1 (by norm_num) (by norm_num)).trans rfl⟩

/-- Claim C6, witness: rotating the 1×2 grid by N = 5 quarter turns equals
one application of Rotate90 (5 mod 4 = 1). -/
theorem rotateN_iterates_w :
    process_5 [[⟨1, 2, 3⟩, ⟨4, 5, 6⟩]] 5 = rotIter ((5 : Int) % 4).toNat [[⟨1, 2, 3⟩, ⟨4, 5, 6⟩]] :=
  (rotateN_iterates [[⟨1, 2, 3⟩, ⟨4, 5, 6⟩]] 5 (by norm_num) (by norm_num)).1

/-- Claim C6, counterexample to the claim as stated: for N = −2 the claim
requires RotateN(g, −2) = Rotate90²(g) (since −2 mod 4 = 2), but on the
1×2 grid the code takes the 270-degree branch (the C++ `%` of the negative
angle −180 by 360 is −180, matching none of 0, 90, 180) and returns a 2×1
grid. -/
theorem rotateN_negative_ce :
    process_5 [[⟨1, 2, 3⟩, ⟨4, 5, 6⟩]] (-2) ≠
      rotIter ((-2 : Int) % 4).toNat [[⟨1, 2, 3⟩, ⟨4, 5, 6⟩]] := by
  decide

/-! ### Claim C2: decode structural validation -/

/-- Claim C2, confirmed: for every input byte stream, whenever the header
file-size field differs from pixel-array-offset + (scanline + padding) ×
height (as the code computes them), decode returns the empty-grid failure
sentinel — not a partially filled grid and not a hard fault — and decode
yields a non-empty grid only when that equality holds. -/
theorem decode_validation (bs : List Nat) :
    (hdrFileSize bs ≠ wrap32 (hdrStart bs +
        wrap32 ((hdrScanline bs + read_padding (hdrScanline bs)) * hdrHeight bs)) →
      read_image bs = some []) ∧
    ∀ image, read_image bs = some image → image ≠ [] →
      hdrFileSize bs = wrap32 (hdrStart bs +
        wrap32 ((hdrScanline bs + read_padding (hdrScanline bs)) * hdrHeight bs)) := by
  constructor
  · intro h
    simp only [read_image]
    rw [if_pos h]
  · intro image him hne
    by_cases h : hdrFileSize bs = wrap32 (hdrStart bs +
        wrap32 ((hdrScanline bs + read_padding (hdrScanline bs)) * hdrHeight bs))
    · exact h
    · exfalso
      apply hne
      simp only [read_image] at him
      rw [if_pos h] at him
      exact (Option.some.inj him).symm

/-- Claim C2, witness: on the empty byte stream every header field reads as
EOF values, the equality fails, and decode returns the sentinel. -/
theorem decode_validation_w : read_image [] = some [] :=
  (decode_validation []).1 (by decide)

/-! ### Byte-level extraction lemmas for the encoded stream -/

lemma wrap32_eq_self (v : Int) (h1 : -2147483648 ≤ v) (h2 : v < 2147483648) :
    wrap32 v = v := by
  unfold wrap32
  omega

lemma streamGet_natCast (bs : List Nat) (n : Nat) : streamGet bs (n : Int) = streamGetN bs n := by
  unfold streamGet
  rw [if_pos (Int.natCast_nonneg n), Int.toNat_natCast]

lemma read_padding_natCast (n : Nat) :
    read_padding ((n : Nat) : Int) = ((write_padding n : Nat) : Int) := by
  unfold read_padding write_padding
  rw [Int.tmod_eq_emod (by omega) (by norm_num)]
  split_ifs with h
  · omega
  · omega

lemma getElem?_eq_getD {α : Type} (l : List α) (i : Nat) (d : α) (h : i < l.length) :
    l[i]? = some (l.getD i d) := by
  rw [List.getD_eq_getElem?_getD, List.getElem?_eq_getElem h]
  rfl

lemma flatMap_getElem_fixed {α β : Type} (l : List α) (g : α → List β) (L : Nat)
    (hL : ∀ a ∈ l, (g a).length = L) (k t : Nat) (a : α)
    (hk : l[k]? = some a) (ht : t < L) :
    (l.flatMap g)[k * L + t]? = (g a)[t]? := by
  induction l generalizing k with
  | nil => simp at hk
  | cons x xs ih =>
    cases k with
    | zero =>
      rw [List.getElem?_cons_zero] at hk
      obtain rfl : x = a := Option.some.inj hk
      rw [List.flatMap_cons, Nat.zero_mul, Nat.zero_add,
        List.getElem?_append_left (by rw [hL x (List.mem_cons_self x xs)]; exact ht)]
    | succ k =>
      have hgx : (g x).length = L := hL x (List.mem_cons_self x xs)
      have h1 : (k + 1) * L = k * L + L := by ring
      rw [List.flatMap_cons, List.getElem?_append_right (by omega)]
      have he : (k + 1) * L + t - (g x).length = k * L + t := by omega
      rw [he]
      exact ih (fun b hb => hL b (List.mem_cons_of_mem x hb)) k (by simpa using hk)

lemma length_rowBytes (row : List Pixel) : (rowBytes row).length = 3 * row.length := by
  induction row with
  | nil => rfl
  | cons p t ih =>
    unfold rowBytes at ih ⊢
    rw [List.flatMap_cons, List.length_append, ih, List.length_cons]
    simp only [List.length_cons, List.length_nil]
    omega

lemma length_bmp_header (fs : Nat) : (bmp_header fs).length = 14 := rfl

lemma length_dib_header (w h ab : Nat) : (dib_header w h ab).length = 40 := rfl

lemma get_int_four_eq (bs : List Nat) (off n : Nat)
    (e0 : bs[off + 0]? = some (n / 1 % 256))
    (e1 : bs[off + 1]? = some (n / 256 % 256))
    (e2 : bs[off + 2]? = some (n / 65536 % 256))
    (e3 : bs[off + 3]? = some (n / 16777216 % 256)) :
    get_int bs off 4 = wrap32 ((n % 4294967296 : Nat)) := by
  have g : get_int bs off 4 = wrap32 (0 + streamGetN bs (off + 0) * 1 +
      streamGetN bs (off + 1) * 256 + streamGetN bs (off + 2) * 65536 +
      streamGetN bs (off + 3) * 16777216) := rfl
  rw [g]
  simp only [streamGetN, e0, e1, e2, e3]
  congr 1
  omega

lemma get_int_two_eq (bs : List Nat) (off n : Nat)
    (e0 : bs[off + 0]? = some (n / 1 % 256))
    (e1 : bs[off + 1]? = some (n / 256 % 256)) :
    get_int bs off 2 = wrap32 ((n % 65536 : Nat)) := by
  have g : get_int bs off 2 = wrap32 (0 + streamGetN bs (off + 0) * 1 +
      streamGetN bs (off + 1) * 256) := rfl
  rw [g]
  simp only [streamGetN, e0, e1]
  congr 1
  omega

set_option maxHeartbeats 3200000 in
lemma hdr_fields (fs w h ab : Nat) (body : List Nat) :
    hdrFileSize (bmp_header fs ++ (dib_header w h ab ++ body)) = wrap32 ((fs % 4294967296 : Nat)) ∧
    hdrStart (bmp_header fs ++ (dib_header w h ab ++ body)) = 54 ∧
    hdrWidth (bmp_header fs ++ (dib_header w h ab ++ body)) = wrap32 ((w % 4294967296 : Nat)) ∧
    hdrHeight (bmp_header fs ++ (dib_header w h ab ++ body)) = wrap32 ((h % 4294967296 : Nat)) ∧
    hdrBpp (bmp_header fs ++ (dib_header w h ab ++ body)) = 24 := by
  refine ⟨get_int_four_eq (bmp_header fs ++ (dib_header w h ab ++ body)) 2 fs rfl rfl rfl rfl,
    (get_int_four_eq (bmp_header fs ++ (dib_header w h ab ++ body)) 10 54 rfl rfl rfl rfl).trans
      (by decide),
    get_int_four_eq (bmp_header fs ++ (dib_header w h ab ++ body)) 18 w rfl rfl rfl rfl,
    get_int_four_eq (bmp_header fs ++ (dib_header w h ab ++ body)) 22 h rfl rfl rfl rfl,
    (get_int_two_eq (bmp_header fs ++ (dib_header w h ab ++ body)) 28 24 rfl rfl).trans
      (by decide)⟩

lemma write_image_body_byte (image : Image) (W : Nat) (h0 : 0 < image.length)
    (hrect : Rectangular image W) (i t : Nat) (hi : i < image.length)
    (ht : t < W * 3 + write_padding (W * 3)) :
    (write_image image)[54 + (image.length - 1 - i) * (W * 3 + write_padding (W * 3)) + t]? =
      (rowBytes (image.getD i []) ++ List.replicate (write_padding (W * 3)) 0)[t]? := by
  have hbs : write_image image =
      bmp_header (14 + 40 + (W * 3 + write_padding (W * 3)) * image.length) ++
      (dib_header W image.length ((W * 3 + write_padding (W * 3)) * image.length) ++
       image.reverse.flatMap (fun row => rowBytes row ++ List.replicate (write_padding (W * 3)) 0)) := by
    simp only [write_image]
    rw [imgWidth_eq image W h0 hrect, List.append_assoc]
  rw [hbs]
  rw [List.getElem?_append_right (by rw [length_bmp_header]; omega), length_bmp_header]
  rw [List.getElem?_append_right (by rw [length_dib_header]; omega), length_dib_header]
  have he : 54 + (image.length - 1 - i) * (W * 3 + write_padding (W * 3)) + t - 14 - 40 =
      (image.length - 1 - i) * (W * 3 + write_padding (W * 3)) + t := by
    omega
  rw [he]
  have hrev : image.reverse[image.length - 1 - i]? = some (image.getD i []) := by
    rw [List.getElem?_reverse (by omega)]
    have hidx : image.length - 1 - (image.length - 1 - i) = i := by omega
    rw [hidx]
    exact getElem?_eq_getD image i [] hi
  refine flatMap_getElem_fixed _ _ _ ?_ _ _ _ ?_ ht
  · intro row hrow
    rw [List.length_append, length_rowBytes, List.length_replicate,
      hrect row (List.mem_reverse.mp hrow)]
    omega
  · exact hrev

lemma write_image_channel_bytes (image : Image) (W : Nat) (h0 : 0 < image.length)
    (hrect : Rectangular image W) (i j : Nat) (hi : i < image.length) (hj : j < W) :
    (write_image image)[54 + (image.length - 1 - i) * (W * 3 + write_padding (W * 3)) + (j * 3 + 0)]?
      = some (((pixelAt image i j).blue % 256).toNat) ∧
    (write_image image)[54 + (image.length - 1 - i) * (W * 3 + write_padding (W * 3)) + (j * 3 + 1)]?
      = some (((pixelAt image i j).green % 256).toNat) ∧
    (write_image image)[54 + (image.length - 1 - i) * (W * 3 + write_padding (W * 3)) + (j * 3 + 2)]?
      = some (((pixelAt image i j).red % 256).toNat) := by
  have hrowmem : image.getD i [] ∈ image := List.getElem?_mem (getElem?_eq_getD image i [] hi)
  have hrow : (image.getD i []).length = W := hrect _ hrowmem
  have hpix : (image.getD i []).getD j blackPixel = pixelAt image i j := rfl
  have key : ∀ t : Nat, t < 3 →
      (write_image image)[54 + (image.length - 1 - i) * (W * 3 + write_padding (W * 3)) + (j * 3 + t)]?
        = ([((pixelAt image i j).blue % 256).toNat, ((pixelAt image i j).green % 256).toNat,
            ((pixelAt image i j).red % 256).toNat] : List Nat)[t]? := by
    intro t htlt
    rw [write_image_body_byte image W h0 hrect i (j * 3 + t) hi (by omega)]
    rw [List.getElem?_append_left (by rw [length_rowBytes, hrow]; omega)]
    have hflat := flatMap_getElem_fixed (image.getD i [])
      (fun p => [(p.blue % 256).toNat, (p.green % 256).toNat, (p.red % 256).toNat]) 3
      (fun p _ => rfl) j t ((image.getD i []).getD j blackPixel)
      (getElem?_eq_getD _ j blackPixel (by omega)) htlt
    rw [show rowBytes (image.getD i []) = (image.getD i []).flatMap
        (fun p => [(p.blue % 256).toNat, (p.green % 256).toNat, (p.red % 256).toNat]) from rfl]
    rw [hflat, hpix]
  exact ⟨(key 0 (by omega)).trans rfl, (key 1 (by omega)).trans rfl, (key 2 (by omega)).trans rfl⟩

/-! ### Claim C10: encode wraps channel values modulo 256 -/

/-- Claim C10, confirmed: for every non-empty rectangular grid, encode
serializes each channel value v (a C++ `int`) as the byte v mod 256 — the
blue, green and red bytes of the pixel at grid position (i, j) sit at the
stated offsets of the output stream and each equals the channel reduced
modulo 256, with no clamping and no rejection — so a channel value of 256
is emitted as the byte 0 (see the witness). -/
theorem encode_wraps_channels (image : Image) (W : Nat) (h0 : 0 < image.length)
    (hrect : Rectangular image W) (i j : Nat) (hi : i < image.length) (hj : j < W) :
    (write_image image)[54 + (image.length - 1 - i) * (W * 3 + write_padding (W * 3)) + (j * 3 + 0)]?
      = some (((pixelAt image i j).blue % 256).toNat) ∧
    (write_image image)[54 + (image.length - 1 - i) * (W * 3 + write_padding (W * 3)) + (j * 3 + 1)]?
      = some (((pixelAt image i j).green % 256).toNat) ∧
    (write_image image)[54 + (image.length - 1 - i) * (W * 3 + write_padding (W * 3)) + (j * 3 + 2)]?
      = some (((pixelAt image i j).red % 256).toNat) :=
  write_image_channel_bytes image W h0 hrect i j hi hj

/-- Claim C10, witness: the 1×1 grid whose pixel has blue channel 256 is
encoded with byte 0 at the blue position (offset 54). -/
theorem encode_wraps_channels_w :
    (write_image [[{ red := 7, green := 3, blue := 256 }]])[54]? = some 0 := by
  have h := (encode_wraps_channels [[⟨7, 3, 256⟩]] 1 (by decide) (by decide) 0 0
    (by decide) (by decide)).1
  simpa [pixelAt, blackPixel, write_padding] using h

